/-
Verification of a transformer encoder-decoder notebook ("transformer from
scratch"): a shallow embedding of its positional encoding, multi-head
attention, and mask-construction code, with theorems checking the stated
behaviour against the code.

Tensors of shape (batch, length, d_model) are embedded as functions
`Fin B → Fin L → Fin D → ℝ`.  Learned parameters (Dense kernels and biases,
Normalization statistics, the dropout multiplier realised on a given call)
are universally quantified arguments, since their values are not fixed by
the source.  Token tensors are embedded over ℤ (the pad index is 0).
-/
import Mathlib

noncomputable section

namespace TransformerFromScratch

/-! ## Elementary layers -/

/-- Rectified linear unit, the activation of every Dense layer in the
attention block (`activation = 'relu'`). -/
def relu (x : ℝ) : ℝ := max x 0

/-- A Keras `Dense(n, activation='relu')` layer applied to the last axis:
affine map by kernel `W` and bias `bias`, then `relu`. -/
def dense {m n : ℕ} (W : Fin m → Fin n → ℝ) (bias : Fin n → ℝ)
    (x : Fin m → ℝ) : Fin n → ℝ :=
  fun j => relu ((∑ i, x i * W i j) + bias j)

/-- `tf.keras.activations.softmax` along an axis of size `n`:
`exp` of each entry divided by the sum of `exp` over the axis. -/
def softmax {n : ℕ} (s : Fin n → ℝ) : Fin n → ℝ :=
  fun k => Real.exp (s k) / ∑ k', Real.exp (s k')

/-- A Keras `Normalization` layer applied feature-wise to the last axis:
subtract the per-feature mean and divide by the square root of the
per-feature variance (both are adapted state, so parameters here). -/
def normalizeFeat {n : ℕ} (mean variance : Fin n → ℝ) (x : Fin n → ℝ) :
    Fin n → ℝ :=
  fun f => (x f - mean f) / Real.sqrt (variance f)

/-! ## PositionalEncodingLayer -/

/-- `omega` in `PositionalEncodingLayer.pos_encoding_mask`:
`1 / np.power(10000, (2 * (i_arr//2)) / np.float32(self.d_model))`.
It is computed by the source but never used in `angles`. -/
def pos_omega (d_model : ℕ) (i : ℕ) : ℝ :=
  1 / (10000 : ℝ) ^ (((2 * (i / 2) : ℕ) : ℝ) / (d_model : ℝ))

/-- `angles = np.matmul(pos_arr, i_arr)`: entry at position `p`, dimension
`i` is the plain product `p * i` (the column vector of positions times the
row vector of dimension indices). -/
def pos_angles (p i : ℕ) : ℝ := (p : ℝ) * (i : ℝ)

/-- `pos_mask`: cosine of the angle at even dimension indices, sine of the
angle at odd dimension indices. -/
def pos_encoding_mask (d_model : ℕ) (p : ℕ) (i : Fin d_model) : ℝ :=
  if (i : ℕ) % 2 = 0 then Real.cos (pos_angles p i) else Real.sin (pos_angles p i)

/-- `PositionalEncodingLayer.call inputs = tf.math.add(inputs, pos_mask)`,
the mask broadcasting across the batch axis. -/
def pos_encoding_call {B L d_model : ℕ}
    (inputs : Fin B → Fin L → Fin d_model → ℝ) :
    Fin B → Fin L → Fin d_model → ℝ :=
  fun b p i => inputs b p i + pos_encoding_mask d_model (p : ℕ) i

/-! ## Mask construction -/

/-- `outerprod`: expands a (batch, L) tensor to (batch, L, L) by
`matmul(transpose(x[:,newaxis,:], [0,2,1]), x[:,newaxis,:])`, whose entry
at `(b, i, j)` is the product `x b i * x b j`. -/
def outerprod {B L : ℕ} (x : Fin B → Fin L → ℤ) :
    Fin B → Fin L → Fin L → ℤ :=
  fun b i j => x b i * x b j

/-- `create_padding_mask seq = tf.cast(tf.math.equal(seq, 0), tf.float32)`:
1.0 where the entry equals the pad index 0, else 0.0. -/
def create_padding_mask {B L : ℕ} (seq : Fin B → Fin L → Fin L → ℤ) :
    Fin B → Fin L → Fin L → ℝ :=
  fun b i j => if seq b i j = 0 then 1 else 0

/-- `tf.linalg.band_part(M, -1, 0)`: keeps the lower triangle including the
diagonal (entries with column index `j ≤` row index `i`), zeroes the rest. -/
def band_part_lower {L : ℕ} (M : Fin L → Fin L → ℝ) : Fin L → Fin L → ℝ :=
  fun i j => if (j : ℕ) ≤ (i : ℕ) then M i j else 0

/-- `tf.ones_like(input_x)`: an all-ones tensor of the same shape. -/
def ones_like {L : ℕ} (_X : Fin L → Fin L → ℝ) : Fin L → Fin L → ℝ :=
  fun _ _ => 1

/-- `create_lookahead_mask input_x = 1 - tf.linalg.band_part(tf.ones_like(input_x), -1, 0)`. -/
def create_lookahead_mask {L : ℕ} (X : Fin L → Fin L → ℝ) :
    Fin L → Fin L → ℝ :=
  fun i j => 1 - band_part_lower (ones_like X) i j

/-! ## MultiHeadedAttention

`build` creates, per head, three `Dense(d_model, activation='relu')`
kernels (`query`, `key`, `value`), two `Normalization` layers, two further
`Dense(d_model, activation='relu')` layers and a `Dropout(0.2)`.  `call`
takes the triple `(query_inp, key_inp, value_inp)` and an optional mask.
The dropout layer is embedded as an element-wise multiplier tensor
`delta` (identity at inference; a random 0 / (1/(1-rate)) pattern during
training), since its realised value is not fixed by the source. -/

section MHA

variable {B Lq Lkv D H : ℕ}

/-- `queries = self.kernels[head_ind]["query"](query_inp)`: the per-head
query Dense projection applied position-wise. -/
def queries (Wq : Fin D → Fin D → ℝ) (bq : Fin D → ℝ)
    (query_inp : Fin B → Fin Lq → Fin D → ℝ) : Fin B → Fin Lq → Fin D → ℝ :=
  fun b q => dense Wq bq (query_inp b q)

/-- `keys = self.kernels[head_ind]["key"](key_inp)`: the per-head key
Dense projection applied position-wise. -/
def keys (Wk : Fin D → Fin D → ℝ) (bk : Fin D → ℝ)
    (key_inp : Fin B → Fin Lkv → Fin D → ℝ) : Fin B → Fin Lkv → Fin D → ℝ :=
  fun b k => dense Wk bk (key_inp b k)

/-- `scores = tf.matmul(queries, tf.transpose(keys, perm = [0,2,1]))`:
batched product of the queries with the transposed keys. -/
def scores (qs : Fin B → Fin Lq → Fin D → ℝ) (ks : Fin B → Fin Lkv → Fin D → ℝ) :
    Fin B → Fin Lq → Fin Lkv → ℝ :=
  fun b q k => ∑ d, qs b q d * ks b k d

/-- The shape of the scores tensor, `tf.shape(scores)`. -/
def scores_shape (B Lq Lkv : ℕ) : List ℕ := [B, Lq, Lkv]

/-- `d_k = (tf.shape(scores).numpy()[-1])`: the size of the trailing axis
of the scores tensor. -/
def d_k (B Lq Lkv : ℕ) : ℕ := (scores_shape B Lq Lkv).getLastD 0

/-- `scaled_scores = (1/np.sqrt(d_k))*scores`. -/
def scaled_scores (s : Fin B → Fin Lq → Fin Lkv → ℝ) :
    Fin B → Fin Lq → Fin Lkv → ℝ :=
  fun b q k => (1 / Real.sqrt (d_k B Lq Lkv : ℝ)) * s b q k

/-- `if padding_mask is not None: scaled_scores += (padding_mask*-1e9)`. -/
def masked_scores (s : Fin B → Fin Lq → Fin Lkv → ℝ)
    (padding_mask : Option (Fin B → Fin Lq → Fin Lkv → ℝ)) :
    Fin B → Fin Lq → Fin Lkv → ℝ :=
  match padding_mask with
  | none => s
  | some m => fun b q k => s b q k + m b q k * (-1e9)

/-- `softmax_scores = tf.keras.activations.softmax(scaled_scores, axis = 2)`:
softmax along the key-position axis. -/
def softmax_scores (s : Fin B → Fin Lq → Fin Lkv → ℝ) :
    Fin B → Fin Lq → Fin Lkv → ℝ :=
  fun b q => softmax (s b q)

/-- `values = tf.matmul(softmax_scores, tf.transpose(value_inp, perm = [0,1,2]))`:
the attention weights applied to the value source (`transpose` with the
identity permutation `[0,1,2]` is the identity). -/
def head_values (sm : Fin B → Fin Lq → Fin Lkv → ℝ)
    (value_inp : Fin B → Fin Lkv → Fin D → ℝ) : Fin B → Fin Lq → Fin D → ℝ :=
  fun b q d => ∑ k, sm b q k * value_inp b k d

/-- One iteration of the head loop in `call`: project the query and key
sources through head `h`'s kernels, score, scale, mask, softmax, and apply
the weights to the (unprojected) value source. -/
def per_head (Wq : Fin H → Fin D → Fin D → ℝ) (bq : Fin H → Fin D → ℝ)
    (Wk : Fin H → Fin D → Fin D → ℝ) (bk : Fin H → Fin D → ℝ)
    (query_inp : Fin B → Fin Lq → Fin D → ℝ)
    (key_inp value_inp : Fin B → Fin Lkv → Fin D → ℝ)
    (padding_mask : Option (Fin B → Fin Lq → Fin Lkv → ℝ)) (h : Fin H) :
    Fin B → Fin Lq → Fin D → ℝ :=
  head_values
    (softmax_scores
      (masked_scores
        (scaled_scores (scores (queries (Wq h) (bq h) query_inp)
                               (keys (Wk h) (bk h) key_inp)))
        padding_mask))
    value_inp

/-- `all_values = tf.concat(all_values, axis = 2)`: concatenation of the
per-head outputs along the feature axis; feature `f` comes from head
`f / D`, feature `f % D` within that head. -/
def concat_heads (hv : Fin H → Fin B → Fin Lq → Fin D → ℝ) :
    Fin B → Fin Lq → Fin (H * D) → ℝ :=
  fun b q f =>
    have hD : 0 < D := by
      rcases Nat.eq_zero_or_pos D with h | h
      · exact absurd f.isLt (by simp [h])
      · exact h
    hv ⟨(f : ℕ) / D, (Nat.div_lt_iff_lt_mul hD).mpr f.isLt⟩ b q
       ⟨(f : ℕ) % D, Nat.mod_lt _ hD⟩

/-- `MultiHeadedAttention.call`.  After the head loop: concatenate,
normalize, Dense-project with dropout, add to the original query-source
input, Dense again, and normalize again. -/
def mha_call (Wq : Fin H → Fin D → Fin D → ℝ) (bq : Fin H → Fin D → ℝ)
    (Wk : Fin H → Fin D → Fin D → ℝ) (bk : Fin H → Fin D → ℝ)
    (_Wv : Fin H → Fin D → Fin D → ℝ) (_bv : Fin H → Fin D → ℝ)
    (mu1 v1 : Fin (H * D) → ℝ) (W1 : Fin (H * D) → Fin D → ℝ) (b1 : Fin D → ℝ)
    (delta : Fin B → Fin Lq → Fin D → ℝ)
    (W2 : Fin D → Fin D → ℝ) (b2 : Fin D → ℝ) (mu2 v2 : Fin D → ℝ)
    (query_inp : Fin B → Fin Lq → Fin D → ℝ)
    (key_inp value_inp : Fin B → Fin Lkv → Fin D → ℝ)
    (padding_mask : Option (Fin B → Fin Lq → Fin Lkv → ℝ)) :
    Fin B → Fin Lq → Fin D → ℝ :=
  let all_values :=
    concat_heads (per_head Wq bq Wk bk query_inp key_inp value_inp padding_mask)
  let normalized_values := fun b q => normalizeFeat mu1 v1 (all_values b q)
  let linear_layer_values := fun b q d =>
    delta b q d * dense W1 b1 (normalized_values b q) d
  let residual_connection := fun b q d =>
    query_inp b q d + linear_layer_values b q d
  let linear_layer_out := fun b q => dense W2 b2 (residual_connection b q)
  fun b q d => normalizeFeat mu2 v2 (linear_layer_out b q) d

end MHA

/-! ## MultiHeadedAttention.build: the kernel dictionary

`build` creates `self.kernels = {head_ind:{} for head_ind in range(n_heads)}`
and fills it for `head_ind in range(n_heads)` — where `n_heads` is the
ambient GLOBAL variable, not `self.n_heads`.  `call` then iterates
`for head_ind in range(self.n_heads)` and looks `self.kernels[head_ind]` up;
a missing key is a lookup failure.  The dictionary is embedded as a partial
map `ℕ → Option (HeadKernels D)`. -/

/-- The three per-head Dense kernels created by `build`
(`kernel_types = ["query", "key", "value"]`), each a weight matrix and a
bias over the model dimension. -/
structure HeadKernels (D : ℕ) where
  queryKernel : (Fin D → Fin D → ℝ) × (Fin D → ℝ)
  keyKernel : (Fin D → Fin D → ℝ) × (Fin D → ℝ)
  valueKernel : (Fin D → Fin D → ℝ) × (Fin D → ℝ)

/-- The kernel dictionary built by `MultiHeadedAttention.build`: it has an
entry exactly for the head indices `head_ind in range(globalHeads)`, where
`globalHeads` is the ambient global `n_heads`.  `mk` supplies the freshly
initialised kernels. -/
def build_kernels (D globalHeads : ℕ) (mk : ℕ → HeadKernels D) :
    ℕ → Option (HeadKernels D) :=
  fun head_ind => if head_ind < globalHeads then some (mk head_ind) else none

/-- Whether the head loop of `call`, `for head_ind in range(self.n_heads)`,
finds every kernel it looks up in the dictionary. -/
def call_kernel_lookups_ok {D : ℕ} (selfHeads : ℕ)
    (kernels : ℕ → Option (HeadKernels D)) : Bool :=
  (List.range selfHeads).all fun head_ind => (kernels head_ind).isSome

/-! ## Decoder.build: layer shapes

`Decoder.build` creates
`tf.keras.layers.Embedding(input_dim = pt_vocab_size, output_dim = self.embedding_dim, input_length = input_length)`
and `self.softmax_layer = tf.keras.layers.Dense(en_vocab_size, activation = 'softmax')`,
reading the global vocabulary sizes reported by the tokenizer.  Only the
shape bookkeeping is embedded here. -/

structure DecoderBuildShapes where
  embeddingInputDim : ℕ
  embeddingOutputDim : ℕ
  softmaxUnits : ℕ

/-- The shapes of the layers created by `Decoder.build`, as functions of
the two tokenizer-reported vocabulary sizes and the model's embedding
dimension.  The embedding lookup table is sized by `pt_vocab_size`. -/
def decoder_build_shapes (pt_vocab_size en_vocab_size embedding_dim : ℕ) :
    DecoderBuildShapes :=
  DecoderBuildShapes.mk pt_vocab_size embedding_dim en_vocab_size

/-! ## Helper lemmas -/

/-- Softmax along a nonempty axis sums to 1. -/
lemma softmax_sum_one {n : ℕ} (hn : 0 < n) (s : Fin n → ℝ) :
    ∑ k, softmax s k = 1 := by
  have hne : Nonempty (Fin n) := ⟨⟨0, hn⟩⟩
  have hpos : 0 < ∑ k', Real.exp (s k') :=
    Finset.sum_pos (fun k _ => Real.exp_pos _) Finset.univ_nonempty
  unfold softmax
  rw [← Finset.sum_div, div_self (ne_of_gt hpos)]

/-- Softmax is invariant under adding a common constant to every entry. -/
lemma softmax_shift {n : ℕ} (s : Fin n → ℝ) (c : ℝ) :
    softmax (fun k => s k + c) = softmax s := by
  funext k
  unfold softmax
  simp only [Real.exp_add, ← Finset.sum_mul]
  rw [mul_div_mul_right _ _ (Real.exp_ne_zero c)]

/-- The number of strictly increasing pairs below `L` is `L * (L - 1) / 2`. -/
lemma sum_range_lt_count (L : ℕ) :
    (∑ i ∈ Finset.range L, ∑ j ∈ Finset.range L, if i < j then 1 else 0) =
      L * (L - 1) / 2 := by
  rw [Finset.sum_comm]
  have h : ∀ j ∈ Finset.range L,
      (∑ i ∈ Finset.range L, if i < j then (1 : ℕ) else 0) = j := by
    intro j hj
    rw [← Finset.card_filter]
    have hfilter : {i ∈ Finset.range L | i < j} = Finset.range j := by
      ext i
      simp only [Finset.mem_filter, Finset.mem_range]
      exact ⟨fun hh => hh.2, fun hh => ⟨hh.trans (Finset.mem_range.mp hj), hh⟩⟩
    rw [hfilter, Finset.card_range]
  rw [Finset.sum_congr rfl h, Finset.sum_range_id]

/-! ## Claim theorems -/

/-- Claim C1 (counterexample): for the single-sequence batch `[0, 5]`, the
padding mask entry at query position 0, key position 1 is 1 although key
position 1 holds the non-pad token 5, and the mask rows at query positions
0 and 1 differ at column 1 — refuting "entry (i,j) is 1 exactly when key
position j holds the pad index 0, so every row is identical". -/
theorem C1_padding_mask_counterexample :
    create_padding_mask (outerprod (fun (_ : Fin 1) => ![(0 : ℤ), 5])) 0 0 1 = 1 ∧
    (![(0 : ℤ), 5]) 1 ≠ 0 ∧
    create_padding_mask (outerprod (fun (_ : Fin 1) => ![(0 : ℤ), 5])) 0 1 1 = 0 := by
  refine ⟨?_, ?_, ?_⟩ <;>
    norm_num [create_padding_mask, outerprod]

/-- Claim C1 (amended): the padding mask built from the outer-product
expansion is the {0,1} matrix whose entry at (query position i, key
position j) is 1 exactly when the token at position i or at position j is
the pad index 0; rows at non-pad query positions mark exactly the pad key
positions, but the row at a pad query position is all ones, so the mask is
not independent of the query position's token. -/
theorem C1_padding_mask_amended {B L : ℕ} (x : Fin B → Fin L → ℤ)
    (b : Fin B) (i j : Fin L) :
    create_padding_mask (outerprod x) b i j =
      if x b i = 0 ∨ x b j = 0 then 1 else 0 := by
  simp only [create_padding_mask, outerprod, mul_eq_zero]

/-- Claim C2 (code bug): `Decoder.build` sizes the target-history embedding
lookup table by the SOURCE (`pt_vocab_size`) vocabulary, not the target
(`en_vocab_size`) one: with pt_vocab_size = 8000 and en_vocab_size = 7000
the created embedding input dimension is 8000, not 7000, although the
decoder's own output projection uses en_vocab_size. -/
theorem C2_decoder_embedding_vocab :
    (decoder_build_shapes 8000 7000 20).embeddingInputDim = 8000 ∧
    (decoder_build_shapes 8000 7000 20).embeddingInputDim ≠ 7000 ∧
    (decoder_build_shapes 8000 7000 20).softmaxUnits = 7000 := by
  refine ⟨rfl, ?_, rfl⟩
  decide

/-- Claim C3: `PositionalEncodingLayer` returns input + mask with the mask
broadcast across the batch axis, where the mask value at position `p` and
dimension `i` is `cos (p * i)` for even `i` and `sin (p * i)` for odd `i` —
the angle is the plain product `p * i`, with `i` used directly. -/
theorem C3_positional_encoding {B L d_model : ℕ}
    (inputs : Fin B → Fin L → Fin d_model → ℝ)
    (b : Fin B) (p : Fin L) (i : Fin d_model) :
    pos_encoding_call inputs b p i =
      inputs b p i +
        (if Even (i : ℕ) then Real.cos (((p : ℕ) : ℝ) * ((i : ℕ) : ℝ))
         else Real.sin (((p : ℕ) : ℝ) * ((i : ℕ) : ℝ))) := by
  simp [pos_encoding_call, pos_encoding_mask, pos_angles, Nat.even_iff]

/-- Claim C4: each head's raw score matrix (queries times transposed keys)
is scaled by `1 / sqrt d_k` where `d_k` is the size of the trailing axis of
the scores tensor, i.e. the key-sequence length `Lkv` — for every model
dimension `D`, so the scale is independent of the projected per-head key
feature dimension. -/
theorem C4_score_scaling {B Lq Lkv D : ℕ}
    (Wq : Fin D → Fin D → ℝ) (bq : Fin D → ℝ)
    (Wk : Fin D → Fin D → ℝ) (bk : Fin D → ℝ)
    (query_inp : Fin B → Fin Lq → Fin D → ℝ)
    (key_inp : Fin B → Fin Lkv → Fin D → ℝ)
    (b : Fin B) (q : Fin Lq) (k : Fin Lkv) :
    d_k B Lq Lkv = Lkv ∧
    scaled_scores (scores (queries Wq bq query_inp) (keys Wk bk key_inp)) b q k =
      (1 / Real.sqrt (Lkv : ℝ)) *
        ∑ d, queries Wq bq query_inp b q d * keys Wk bk key_inp b k d :=
  ⟨rfl, rfl⟩

/-- Claim C5: each head projects only the query and key sources through its
learned Dense kernels; the softmax attention weights multiply the
unprojected value source, and the final output of `call` is unchanged when
the per-head value kernels created at build time are replaced by any
others. -/
theorem C5_value_projection_unused {B Lq Lkv D H : ℕ}
    (Wq : Fin H → Fin D → Fin D → ℝ) (bq : Fin H → Fin D → ℝ)
    (Wk : Fin H → Fin D → Fin D → ℝ) (bk : Fin H → Fin D → ℝ)
    (Wv Wv' : Fin H → Fin D → Fin D → ℝ) (bv bv' : Fin H → Fin D → ℝ)
    (mu1 v1 : Fin (H * D) → ℝ) (W1 : Fin (H * D) → Fin D → ℝ) (b1 : Fin D → ℝ)
    (delta : Fin B → Fin Lq → Fin D → ℝ)
    (W2 : Fin D → Fin D → ℝ) (b2 : Fin D → ℝ) (mu2 v2 : Fin D → ℝ)
    (query_inp : Fin B → Fin Lq → Fin D → ℝ)
    (key_inp value_inp : Fin B → Fin Lkv → Fin D → ℝ)
    (padding_mask : Option (Fin B → Fin Lq → Fin Lkv → ℝ)) (h : Fin H) :
    mha_call Wq bq Wk bk Wv bv mu1 v1 W1 b1 delta W2 b2 mu2 v2
        query_inp key_inp value_inp padding_mask =
      mha_call Wq bq Wk bk Wv' bv' mu1 v1 W1 b1 delta W2 b2 mu2 v2
        query_inp key_inp value_inp padding_mask ∧
    per_head Wq bq Wk bk query_inp key_inp value_inp padding_mask h =
      head_values
        (softmax_scores
          (masked_scores
            (scaled_scores (scores (queries (Wq h) (bq h) query_inp)
                                   (keys (Wk h) (bk h) key_inp)))
            padding_mask))
        value_inp :=
  ⟨rfl, rfl⟩

/-- Claim C6: `call` adds the dropout-regularized Dense projection of the
normalized concatenated head outputs element-wise to the original
query-source input (not to the normalized attention output), passes the sum
through a further Dense layer, and applies a second normalization to
produce the final output. -/
theorem C6_residual_structure {B Lq Lkv D H : ℕ}
    (Wq : Fin H → Fin D → Fin D → ℝ) (bq : Fin H → Fin D → ℝ)
    (Wk : Fin H → Fin D → Fin D → ℝ) (bk : Fin H → Fin D → ℝ)
    (Wv : Fin H → Fin D → Fin D → ℝ) (bv : Fin H → Fin D → ℝ)
    (mu1 v1 : Fin (H * D) → ℝ) (W1 : Fin (H * D) → Fin D → ℝ) (b1 : Fin D → ℝ)
    (delta : Fin B → Fin Lq → Fin D → ℝ)
    (W2 : Fin D → Fin D → ℝ) (b2 : Fin D → ℝ) (mu2 v2 : Fin D → ℝ)
    (query_inp : Fin B → Fin Lq → Fin D → ℝ)
    (key_inp value_inp : Fin B → Fin Lkv → Fin D → ℝ)
    (padding_mask : Option (Fin B → Fin Lq → Fin Lkv → ℝ))
    (b : Fin B) (q : Fin Lq) (d : Fin D) :
    mha_call Wq bq Wk bk Wv bv mu1 v1 W1 b1 delta W2 b2 mu2 v2
        query_inp key_inp value_inp padding_mask b q d =
      normalizeFeat mu2 v2
        (dense W2 b2 (fun d' =>
          query_inp b q d' +
            delta b q d' *
              dense W1 b1
                (normalizeFeat mu1 v1
                  (concat_heads
                    (per_head Wq bq Wk bk query_inp key_inp value_inp
                      padding_mask) b q)) d')) d :=
  rfl

/-- Claim C7: the lookahead mask is the strictly upper-triangular {0,1}
matrix — entry (i,j) is 1 exactly when j > i — and its entries sum to
`L * (L - 1) / 2`. -/
theorem C7_lookahead_mask {L : ℕ} (X : Fin L → Fin L → ℝ) :
    (∀ i j : Fin L,
      create_lookahead_mask X i j = if (i : ℕ) < (j : ℕ) then 1 else 0) ∧
    (∑ i : Fin L, ∑ j : Fin L, create_lookahead_mask X i j) =
      ((L * (L - 1) / 2 : ℕ) : ℝ) := by
  have hpt : ∀ i j : Fin L,
      create_lookahead_mask X i j = if (i : ℕ) < (j : ℕ) then 1 else 0 := by
    intro i j
    by_cases hij : (j : ℕ) ≤ (i : ℕ)
    · simp [create_lookahead_mask, band_part_lower, ones_like, hij,
        Nat.not_lt.mpr hij]
    · simp [create_lookahead_mask, band_part_lower, ones_like, hij,
        Nat.not_le.mp hij]
  refine ⟨hpt, ?_⟩
  calc (∑ i : Fin L, ∑ j : Fin L, create_lookahead_mask X i j)
      = ∑ i : Fin L, ∑ j : Fin L,
          (((if (i : ℕ) < (j : ℕ) then 1 else 0 : ℕ)) : ℝ) := by
        refine Finset.sum_congr rfl fun i _ => Finset.sum_congr rfl fun j _ => ?_
        rw [hpt i j]
        split_ifs <;> simp
    _ = ∑ i ∈ Finset.range L, ∑ j ∈ Finset.range L,
          (((if i < j then 1 else 0 : ℕ)) : ℝ) := by
        rw [Fin.sum_univ_eq_sum_range
          (fun i => ∑ j : Fin L, (((if i < (j : ℕ) then 1 else 0 : ℕ)) : ℝ))]
        refine Finset.sum_congr rfl fun i _ => ?_
        rw [Fin.sum_univ_eq_sum_range
          (fun j => (((if i < j then 1 else 0 : ℕ)) : ℝ))]
    _ = ((∑ i ∈ Finset.range L, ∑ j ∈ Finset.range L,
          (if i < j then 1 else 0) : ℕ) : ℝ) := by
        push_cast
        rfl
    _ = ((L * (L - 1) / 2 : ℕ) : ℝ) := by rw [sum_range_lt_count]

/-- Claim C8: each row of each head's softmax attention-weight matrix sums
to exactly 1 over the key axis, for every batch element and query position,
for every input triple and optional mask (the key axis being nonempty). -/
theorem C8_softmax_rows_sum_one {B Lq Lkv D H : ℕ}
    (Wq : Fin H → Fin D → Fin D → ℝ) (bq : Fin H → Fin D → ℝ)
    (Wk : Fin H → Fin D → Fin D → ℝ) (bk : Fin H → Fin D → ℝ)
    (query_inp : Fin B → Fin Lq → Fin D → ℝ)
    (key_inp : Fin B → Fin Lkv → Fin D → ℝ)
    (padding_mask : Option (Fin B → Fin Lq → Fin Lkv → ℝ))
    (h : Fin H) (b : Fin B) (q : Fin Lq) (hL : 0 < Lkv) :
    ∑ k, softmax_scores
        (masked_scores
          (scaled_scores (scores (queries (Wq h) (bq h) query_inp)
                                 (keys (Wk h) (bk h) key_inp)))
          padding_mask) b q k = 1 :=
  softmax_sum_one hL _

/-- Witness for C8 at a concrete instance (one batch element, one query
position, one key position, one head, all-zero parameters, no mask). -/
theorem C8_softmax_rows_sum_one_witness :
    (0 < 1) ∧
    ∑ k, softmax_scores
        (masked_scores
          (scaled_scores (scores
            (queries ((fun _ _ => 0) : Fin 1 → Fin 1 → ℝ) (fun _ => 0)
              ((fun _ _ _ => 0) : Fin 1 → Fin 1 → Fin 1 → ℝ))
            (keys ((fun _ _ => 0) : Fin 1 → Fin 1 → ℝ) (fun _ => 0)
              ((fun _ _ _ => 0) : Fin 1 → Fin 1 → Fin 1 → ℝ))))
          none) 0 0 k = 1 :=
  ⟨Nat.one_pos,
   C8_softmax_rows_sum_one
     ((fun _ _ _ => 0) : Fin 1 → Fin 1 → Fin 1 → ℝ)
     ((fun _ _ => 0) : Fin 1 → Fin 1 → ℝ)
     ((fun _ _ _ => 0) : Fin 1 → Fin 1 → Fin 1 → ℝ)
     ((fun _ _ => 0) : Fin 1 → Fin 1 → ℝ)
     ((fun _ _ _ => 0) : Fin 1 → Fin 1 → Fin 1 → ℝ)
     ((fun _ _ _ => 0) : Fin 1 → Fin 1 → Fin 1 → ℝ)
     none (0 : Fin 1) (0 : Fin 1) (0 : Fin 1) Nat.one_pos⟩

/-- Claim C9: `build` creates kernels for the head indices below the ambient
global `n_heads` while `call` iterates head indices below the instance's
configured `self.n_heads`; every kernel lookup of the head loop succeeds
exactly when the configured head count is at most the global one. -/
theorem C9_kernel_lookup_safety (D selfHeads globalHeads : ℕ)
    (mk : ℕ → HeadKernels D) :
    call_kernel_lookups_ok selfHeads (build_kernels D globalHeads mk) = true ↔
      selfHeads ≤ globalHeads := by
  simp only [call_kernel_lookups_ok, build_kernels, List.all_eq_true,
    List.mem_range]
  constructor
  · intro h
    by_contra hgt
    push_neg at hgt
    have h2 := h globalHeads hgt
    simp at h2
  · intro h head_ind hlt
    simp [Nat.lt_of_lt_of_le hlt h]

/-- Claim C10 (counterexample): with one head over model dimension 1, the
all-pad sequence `[0, 0]` yields an all-ones padding-mask row at query
position 0 (both conjuncts below), yet for query source constantly 1, key
source `[0, 1]`, and all-ones query/key kernels with zero bias, the
attention weight on key 0 is `1 / (1 + exp (1/sqrt 2))`, which is NOT the
uniform `1 / length_kv = 1/2` — the claim that fully masked rows give
exactly uniform weights fails. -/
theorem C10_fully_masked_counterexample :
    create_padding_mask (outerprod (fun (_ : Fin 1) (_ : Fin 2) => (0 : ℤ))) 0 0 0 = 1 ∧
    create_padding_mask (outerprod (fun (_ : Fin 1) (_ : Fin 2) => (0 : ℤ))) 0 0 1 = 1 ∧
    softmax_scores
        (masked_scores
          (scaled_scores (scores
            (queries ((fun _ _ => 1) : Fin 1 → Fin 1 → ℝ) (fun _ => 0)
              ((fun _ _ _ => 1) : Fin 1 → Fin 2 → Fin 1 → ℝ))
            (keys ((fun _ _ => 1) : Fin 1 → Fin 1 → ℝ) (fun _ => 0)
              ((fun _ k _ => ((k : ℕ) : ℝ)) : Fin 1 → Fin 2 → Fin 1 → ℝ))))
          (some (create_padding_mask
            (outerprod (fun (_ : Fin 1) (_ : Fin 2) => (0 : ℤ))))))
        0 0 0 ≠ 1 / ((2 : ℕ) : ℝ) := by
  refine ⟨by norm_num [create_padding_mask, outerprod],
          by norm_num [create_padding_mask, outerprod], ?_⟩
  have hmask : create_padding_mask
      (outerprod (fun (_ : Fin 1) (_ : Fin 2) => (0 : ℤ))) =
      fun _ _ _ => (1 : ℝ) := by
    funext b i j
    simp [create_padding_mask, outerprod]
  have hQ : queries ((fun _ _ => 1) : Fin 1 → Fin 1 → ℝ) (fun _ => 0)
      ((fun _ _ _ => 1) : Fin 1 → Fin 2 → Fin 1 → ℝ) 0 0 0 = 1 := by
    simp [queries, dense, relu, Fin.sum_univ_one]
  have hK : ∀ k : Fin 2,
      keys ((fun _ _ => 1) : Fin 1 → Fin 1 → ℝ) (fun _ => 0)
        ((fun _ k _ => ((k : ℕ) : ℝ)) : Fin 1 → Fin 2 → Fin 1 → ℝ) 0 k 0 =
        ((k : ℕ) : ℝ) := by
    intro k
    simp [keys, dense, relu, Fin.sum_univ_one]
  have hS : ∀ k : Fin 2,
      scaled_scores (scores
        (queries ((fun _ _ => 1) : Fin 1 → Fin 1 → ℝ) (fun _ => 0)
          ((fun _ _ _ => 1) : Fin 1 → Fin 2 → Fin 1 → ℝ))
        (keys ((fun _ _ => 1) : Fin 1 → Fin 1 → ℝ) (fun _ => 0)
          ((fun _ k _ => ((k : ℕ) : ℝ)) : Fin 1 → Fin 2 → Fin 1 → ℝ))) 0 0 k =
        (1 / Real.sqrt 2) * ((k : ℕ) : ℝ) := by
    intro k
    rw [scaled_scores]
    rw [show scores
        (queries ((fun _ _ => 1) : Fin 1 → Fin 1 → ℝ) (fun _ => 0)
          ((fun _ _ _ => 1) : Fin 1 → Fin 2 → Fin 1 → ℝ))
        (keys ((fun _ _ => 1) : Fin 1 → Fin 1 → ℝ) (fun _ => 0)
          ((fun _ k _ => ((k : ℕ) : ℝ)) : Fin 1 → Fin 2 → Fin 1 → ℝ)) 0 0 k =
        ((k : ℕ) : ℝ) from by
      rw [scores, Fin.sum_univ_one, hQ, hK k, one_mul]]
    norm_num [d_k, scores_shape]
  intro hcontra
  have heval : softmax_scores
      (masked_scores
        (scaled_scores (scores
          (queries ((fun _ _ => 1) : Fin 1 → Fin 1 → ℝ) (fun _ => 0)
            ((fun _ _ _ => 1) : Fin 1 → Fin 2 → Fin 1 → ℝ))
          (keys ((fun _ _ => 1) : Fin 1 → Fin 1 → ℝ) (fun _ => 0)
            ((fun _ k _ => ((k : ℕ) : ℝ)) : Fin 1 → Fin 2 → Fin 1 → ℝ))))
        (some (create_padding_mask
          (outerprod (fun (_ : Fin 1) (_ : Fin 2) => (0 : ℤ))))))
      0 0 0 = 1 / (1 + Real.exp (1 / Real.sqrt 2)) := by
    rw [hmask]
    show softmax (fun k => scaled_scores (scores
        (queries ((fun _ _ => 1) : Fin 1 → Fin 1 → ℝ) (fun _ => 0)
          ((fun _ _ _ => 1) : Fin 1 → Fin 2 → Fin 1 → ℝ))
        (keys ((fun _ _ => 1) : Fin 1 → Fin 1 → ℝ) (fun _ => 0)
          ((fun _ k _ => ((k : ℕ) : ℝ)) : Fin 1 → Fin 2 → Fin 1 → ℝ))) 0 0 k +
        (1 : ℝ) * (-1e9)) 0 = 1 / (1 + Real.exp (1 / Real.sqrt 2))
    rw [show (fun k : Fin 2 => scaled_scores (scores
        (queries ((fun _ _ => 1) : Fin 1 → Fin 1 → ℝ) (fun _ => 0)
          ((fun _ _ _ => 1) : Fin 1 → Fin 2 → Fin 1 → ℝ))
        (keys ((fun _ _ => 1) : Fin 1 → Fin 1 → ℝ) (fun _ => 0)
          ((fun _ k _ => ((k : ℕ) : ℝ)) : Fin 1 → Fin 2 → Fin 1 → ℝ))) 0 0 k +
        (1 : ℝ) * (-1e9)) =
        fun k : Fin 2 => (1 / Real.sqrt 2) * ((k : ℕ) : ℝ) + (-1e9) from by
      funext k
      rw [hS k, one_mul]]
    rw [softmax_shift (fun k : Fin 2 => (1 / Real.sqrt 2) * ((k : ℕ) : ℝ))
      (-1e9)]
    unfold softmax
    rw [Fin.sum_univ_two]
    norm_num
  rw [heval] at hcontra
  have hpos : (0 : ℝ) < 1 / Real.sqrt 2 := by positivity
  have hE : 1 < Real.exp (1 / Real.sqrt 2) := Real.one_lt_exp_iff.mpr hpos
  have hlt : 1 / (1 + Real.exp (1 / Real.sqrt 2)) < 1 / ((2 : ℕ) : ℝ) := by
    rw [show ((2 : ℕ) : ℝ) = 2 by norm_num]
    exact one_div_lt_one_div_of_lt (by norm_num) (by linarith)
  exact absurd hcontra (ne_of_lt hlt)

/-- Claim C10 (amended): when the supplied mask row at a query position is
all ones, the uniform `-1e9` penalty cancels in the softmax and that row's
attention weights equal the softmax of the UNMASKED scaled scores — not
weights near zero; they equal the uniform `1 / length_kv` exactly in the
special case that the row's scaled scores are all equal. -/
theorem C10_fully_masked_amended {B Lq Lkv : ℕ}
    (s m : Fin B → Fin Lq → Fin Lkv → ℝ) (b : Fin B) (q : Fin Lq) (c : ℝ)
    (hm : m b q = fun _ => 1) :
    softmax_scores (masked_scores s (some m)) b q = softmax_scores s b q ∧
    (s b q = (fun _ => c) →
      softmax_scores (masked_scores s (some m)) b q = fun _ => 1 / (Lkv : ℝ)) := by
  have hfun : (fun k => s b q k + m b q k * (-1e9)) =
      fun k => s b q k + (-1e9) := by
    funext k
    rw [show m b q k = 1 from congrFun hm k]
    ring
  have hshift : softmax_scores (masked_scores s (some m)) b q =
      softmax_scores s b q := by
    show softmax (fun k => s b q k + m b q k * (-1e9)) = softmax (s b q)
    rw [hfun, softmax_shift]
  refine ⟨hshift, fun hc => ?_⟩
  rw [hshift]
  funext k
  show softmax (s b q) k = 1 / (Lkv : ℝ)
  simp only [softmax, hc]
  rw [Finset.sum_const, Finset.card_univ, Fintype.card_fin, nsmul_eq_mul,
    mul_comm, ← div_div, div_self (Real.exp_ne_zero c)]

/-- Witness for the amended C10 at a concrete instance: an all-ones mask
over two key positions and constantly-zero scaled scores. -/
theorem C10_fully_masked_amended_witness :
    softmax_scores (masked_scores ((fun _ _ _ => 0) : Fin 1 → Fin 1 → Fin 2 → ℝ)
        (some (fun _ _ _ => 1))) 0 0 =
      softmax_scores ((fun _ _ _ => 0) : Fin 1 → Fin 1 → Fin 2 → ℝ) 0 0 ∧
    softmax_scores (masked_scores ((fun _ _ _ => 0) : Fin 1 → Fin 1 → Fin 2 → ℝ)
        (some (fun _ _ _ => 1))) 0 0 = fun _ => 1 / ((2 : ℕ) : ℝ) :=
  ⟨(C10_fully_masked_amended (fun _ _ _ => 0) (fun _ _ _ => 1) 0 0 0 rfl).1,
   (C10_fully_masked_amended (fun _ _ _ => 0) (fun _ _ _ => 1) 0 0 0 rfl).2 rfl⟩

end TransformerFromScratch

end
